import Mathlib

set_option maxHeartbeats 1000000

/-!
Verification development for a URL-shortening HTTP service.

The embedding translates the repository's Python source:
  app/models/url.py       (URL model, to_dict, generate_short_code)
  app/utils/validators.py (validate_url)
  app/routes/api.py       (the six request handlers)
into executable Lean definitions.  Randomness is modelled as an
adversarial index supply, the unbounded retry loop of the code
generator as fuel (returning none when the fuel runs out), database
commits as an explicit success flag (a failed commit raises, the
handler's except-branch answers 500 and the persisted record set is
the transaction-rollback state), and wall-clock time as an explicit
datetime argument.
-/

/-- Python whitespace characters handled by str.strip (ASCII range). -/
def isPySpace (c : Char) : Bool :=
  c == ' ' || c == '\t' || c == '\n' || c == '\r' || c == '\x0B' || c == '\x0C'

/-- Python str.strip on the underlying character list: drop whitespace
from the front, then from the back. -/
def pyStripList (cs : List Char) : List Char :=
  ((cs.dropWhile isPySpace).reverse.dropWhile isPySpace).reverse

/-- Python str.strip. -/
def pyStrip (s : String) : String := String.mk (pyStripList s.data)

/-- JSON values, as far as the request bodies and responses need them. -/
inductive JValue where
  | str (s : String)
  | int (n : Int)
  | bool (b : Bool)
  | null
deriving DecidableEq

/-- A Python datetime value (datetime.utcnow produces naive UTC values,
with year between 1 and 9999 and microsecond below 1000000). -/
structure PyDateTime where
  year : Nat
  month : Nat
  day : Nat
  hour : Nat
  minute : Nat
  second : Nat
  microsecond : Nat
deriving DecidableEq

/-- The decimal digit character for n % 10. -/
def digitChar (n : Nat) : Char := Char.ofNat (48 + n % 10)

/-- Decimal digits of a natural number, most significant first,
prepended to an accumulator.  The fuel argument only bounds the
recursion (n + 1 units always suffice, since n has at most n + 1
digits), keeping the definition structurally recursive and hence
computable inside the kernel. -/
def natDigitsAux (fuel : Nat) (n : Nat) (acc : List Char) : List Char :=
  match fuel with
  | 0 => acc
  | fuel + 1 =>
    if n < 10 then digitChar n :: acc
    else natDigitsAux fuel (n / 10) (digitChar n :: acc)

/-- Decimal digit string of a natural number (Python str(int) for
non-negative input). -/
def natDigits (n : Nat) : List Char := natDigitsAux (n + 1) n []

/-- Zero-padded fixed-width decimal rendering, as the %Y %m %d %H %M %S
%f strftime conversions produce (wider numbers keep all their digits). -/
def padZeros (w n : Nat) : List Char :=
  List.replicate (w - (natDigits n).length) '0' ++ natDigits n

/-- strftime with format %Y-%m-%dT%H:%M:%S.%fZ as used by URL.to_dict:
%f is the six-digit microsecond field. -/
def strftimeISO (d : PyDateTime) : String :=
  String.mk (padZeros 4 d.year ++ '-' :: (padZeros 2 d.month ++ '-' :: (padZeros 2 d.day
    ++ 'T' :: (padZeros 2 d.hour ++ ':' :: (padZeros 2 d.minute ++ ':' :: (padZeros 2 d.second
    ++ '.' :: (padZeros 6 d.microsecond ++ ['Z'])))))))

/-- A row of the urls table (app/models/url.py). -/
structure URLRecord where
  id : Nat
  original_url : String
  short_code : String
  created_at : PyDateTime
  updated_at : PyDateTime
  access_count : Int
deriving DecidableEq

/-- URL.to_dict: the JSON object serialized for API responses. -/
def to_dict (r : URLRecord) : List (String × JValue) :=
  [("id", JValue.str (String.mk (natDigits r.id))),
   ("url", JValue.str r.original_url),
   ("shortCode", JValue.str r.short_code),
   ("createdAt", JValue.str (strftimeISO r.created_at)),
   ("updatedAt", JValue.str (strftimeISO r.updated_at)),
   ("accessCount", JValue.int r.access_count)]

/-- string.ascii_letters + string.digits: the 62-character alphabet of
the code generator. -/
def characters : List Char :=
  ("abcdefghijklmnopqrstuvwxyz" ++ "ABCDEFGHIJKLMNOPQRSTUVWXYZ" ++ "0123456789").data

/-- random.choice(characters): an arbitrary supply index, reduced into
range exactly as a uniform draw lands inside the alphabet. -/
def pickChar (k : Nat) : Char :=
  (characters.get? (k % characters.length)).getD 'a'

/-- One candidate draw: length independently chosen characters joined
into a string. -/
def drawCode (len : Nat) (pick : Nat → Nat) : String :=
  String.mk ((List.range len).map fun i => pickChar (pick i))

/-- URL.query.filter_by(short_code=code).first() truthiness: does some
stored record carry this code. -/
def existsCode (records : List URLRecord) (code : String) : Bool :=
  (records.find? fun r => r.short_code == code).isSome

/-- URL.generate_short_code: redraw until the candidate is unassigned.
The source loops without bound; the model spends one unit of fuel per
attempt and returns none when the fuel is exhausted, so every returned
code is one the loop would produce. -/
def generate_short_code (records : List URLRecord) (len : Nat)
    (rand : Nat → Nat → Nat) : Nat → Option String
  | 0 => none
  | fuel + 1 =>
    let code := drawCode len (rand fuel)
    if existsCode records code then generate_short_code records len rand fuel
    else some code

lemma characters_length : characters.length = 62 := by decide

lemma characters_alnum : ∀ c ∈ characters, c.isAlphanum = true := by decide

lemma pickChar_alnum (k : Nat) : (pickChar k).isAlphanum = true := by
  unfold pickChar
  cases h : characters.get? (k % characters.length) with
  | none =>
    simp only [h, Option.getD_none]
    decide
  | some c =>
    have hc : c ∈ characters := List.get?_mem h
    simp only [h, Option.getD_some]
    exact characters_alnum c hc

lemma drawCode_length (len : Nat) (p : Nat → Nat) : (drawCode len p).length = len := by
  simp [drawCode, String.length]

lemma drawCode_chars (len : Nat) (p : Nat → Nat) :
    ∀ ch ∈ (drawCode len p).data, ch.isAlphanum = true := by
  intro ch hch
  simp only [drawCode, String.data] at hch
  rcases List.mem_map.mp hch with ⟨i, _, rfl⟩
  exact pickChar_alnum _

/-! ## Validator (app/utils/validators.py)

validate_url matches the anchored, case-insensitive pattern

  https?:// (domain | localhost | dotted-quad) (:digits)? (/? | [/?]nonspace+)

and then additionally requires urlparse to report a non-empty scheme
and netloc.  The recognizer below accepts exactly the language of that
pattern: alternation and unbounded pieces become explicit splits of the
character list, which is what a backtracking match succeeding means. -/

/-- One domain label: [A-Z0-9](?:[A-Z0-9-]{0,61}[A-Z0-9])? under
IGNORECASE, i.e. 1 to 63 characters, alphanumeric at both ends,
alphanumeric or hyphen in between. -/
def isHostLabel (cs : List Char) : Bool :=
  match cs with
  | [] => false
  | c :: rest =>
    c.isAlphanum &&
      (match rest with
       | [] => true
       | _ :: _ =>
         rest.length ≤ 62 && (rest.dropLast.all fun x => x.isAlphanum || x == '-') &&
           (match rest.getLast? with
            | some l => l.isAlphanum
            | none => true))

/-- Final domain component: [A-Z]{2,6} under IGNORECASE. -/
def isTld (cs : List Char) : Bool :=
  2 ≤ cs.length && cs.length ≤ 6 && cs.all Char.isAlpha

/-- Split a character list at every dot (dots cannot occur inside any
host component, so this decomposition is exact). -/
def splitOnDot : List Char → List (List Char)
  | [] => [[]]
  | c :: rest =>
    if c = '.' then [] :: splitOnDot rest
    else
      match splitOnDot rest with
      | g :: gs => (c :: g) :: gs
      | [] => [[c]]

/-- Domain alternative of the host group: (label.)+ TLD with an
optional trailing dot. -/
def isDomainHost (cs : List Char) : Bool :=
  let parts := splitOnDot cs
  let parts2 := if parts.getLast? == some ([] : List Char) then parts.dropLast else parts
  2 ≤ parts2.length && parts2.dropLast.all isHostLabel &&
    (match parts2.getLast? with
     | some t => isTld t
     | none => false)

/-- IPv4 alternative: \d{1,3}\.\d{1,3}\.\d{1,3}\.\d{1,3} — four groups
of one to three digits, with no range check on the values. -/
def isIpv4Host (cs : List Char) : Bool :=
  let parts := splitOnDot cs
  parts.length = 4 && parts.all fun g => 1 ≤ g.length && g.length ≤ 3 && g.all Char.isDigit

/-- localhost alternative, case-insensitive. -/
def isLocalhost (cs : List Char) : Bool :=
  cs.map Char.toLower == "localhost".data

def hostMatch (cs : List Char) : Bool :=
  isDomainHost cs || isLocalhost cs || isIpv4Host cs

/-- Optional port group (?::\d+)?. -/
def portOpt (cs : List Char) : Bool :=
  match cs with
  | [] => true
  | c :: rest => c == ':' && !rest.isEmpty && rest.all Char.isDigit

/-- Regex whitespace class \s (ASCII range). -/
def isRegexSpace (c : Char) : Bool :=
  c == ' ' || c == '\t' || c == '\n' || c == '\r' || c == '\x0B' || c == '\x0C'

/-- Trailing group (?:/?|[/?]\S+): empty, a lone slash, or a slash or
question mark followed by at least one non-space character. -/
def pathPart (cs : List Char) : Bool :=
  match cs with
  | [] => true
  | ['/'] => true
  | c :: rest => (c == '/' || c == '?') && !rest.isEmpty && rest.all fun x => !isRegexSpace x

/-- All ways of cutting a list in two. -/
def splitsList (cs : List Char) : List (List Char × List Char) :=
  (List.range (cs.length + 1)).map fun i => (cs.take i, cs.drop i)

/-- host, optional port and path/query tail, matched against the rest
of the input after the scheme. -/
def hostPortPath (cs : List Char) : Bool :=
  (splitsList cs).any fun hp =>
    hostMatch hp.1 && (splitsList hp.2).any fun pt => portOpt pt.1 && pathPart pt.2

/-- The whole anchored pattern: case-insensitive http:// or https://
prefix, then host, port, path. -/
def regexMatch (cs : List Char) : Bool :=
  if (cs.take 8).map Char.toLower == "https://".data then hostPortPath (cs.drop 8)
  else if (cs.take 7).map Char.toLower == "http://".data then hostPortPath (cs.drop 7)
  else false

/-- Characters urlparse allows after the first letter of a scheme. -/
def isSchemeChar (c : Char) : Bool :=
  c.isAlphanum || c == '+' || c == '-' || c == '.'

/-- Split at the first colon, when there is one. -/
def findColon : List Char → Option (List Char × List Char)
  | [] => none
  | c :: rest =>
    if c = ':' then some ([], rest)
    else
      match findColon rest with
      | some (p, r) => some (c :: p, r)
      | none => none

/-- urlparse, reduced to the two fields the validator reads: the
lowercased scheme (empty when the prefix before the first colon is not
a well-formed scheme) and the netloc (the text between // and the next
slash, question mark or hash). -/
def urlparseSchemeNetloc (cs : List Char) : List Char × List Char :=
  let sr :=
    match findColon cs with
    | some (p, r) =>
      if !p.isEmpty && (p.headD 'a').isAlpha then
        if p.all isSchemeChar then (p.map Char.toLower, r) else ([], cs)
      else ([], cs)
    | none => ([], cs)
  let netloc :=
    if sr.2.take 2 == ['/', '/'] then
      (sr.2.drop 2).takeWhile fun c => !(c == '/' || c == '?' || c == '#')
    else []
  (sr.1, netloc)

/-- validate_url: regex match, then urlparse must report a scheme and a
netloc; any internal failure counts as invalid. -/
def validate_url (url : String) : Bool :=
  if regexMatch url.data then
    let sn := urlparseSchemeNetloc url.data
    !sn.1.isEmpty && !sn.2.isEmpty
  else false

/-! ## Request handlers (app/routes/api.py)

Each handler becomes a function from the persisted store and the
request data to an HTTP result and the store after the request.  A
commit either persists every pending change of the transaction or, when
the commit flag is false, raises: the handler's except-branch then
returns the generic 500 body and the persisted record set is the state
from before the transaction. -/

/-- An HTTP response: status code, JSON body (none for the empty 204
body), and redirect Location when present. -/
structure HttpResult where
  status : Nat
  body : Option (List (String × JValue))
  location : Option String
deriving DecidableEq

/-- The persisted store: the urls table plus the autoincrement counter
that assigns the next primary key. -/
structure DB where
  records : List URLRecord
  next_id : Nat
deriving DecidableEq

def internalError : HttpResult :=
  ⟨500, some [("error", JValue.str "Internal server error")], none⟩

def notFoundError : HttpResult :=
  ⟨404, some [("error", JValue.str "Short URL not found")], none⟩

def urlRequiredError : HttpResult :=
  ⟨400, some [("error", JValue.str "URL is required")], none⟩

def invalidUrlError : HttpResult :=
  ⟨400, some [("error", JValue.str "Invalid URL format. URL must start with http:// or https://")], none⟩

/-- filter_by(short_code=code).first(). -/
def findByCode (records : List URLRecord) (code : String) : Option URLRecord :=
  records.find? fun r => r.short_code == code

/-- filter_by(original_url=url).first(). -/
def findByUrl (records : List URLRecord) (url : String) : Option URLRecord :=
  records.find? fun r => r.original_url == url

/-- UPDATE of one row, addressed by primary key. -/
def replaceById (records : List URLRecord) (i : Nat) (r' : URLRecord) : List URLRecord :=
  records.map fun x => if x.id == i then r' else x

/-- POST /shorten.  urlField is the url entry of the parsed JSON body
(none when the body is missing, empty, or has no url key).  A non-string
value makes data['url'].strip() raise, landing in the except-branch. -/
def create_short_url (st : DB) (urlField : Option JValue) (rand : Nat → Nat → Nat)
    (fuel : Nat) (now : PyDateTime) (commitOk : Bool) : Option (HttpResult × DB) :=
  match urlField with
  | none => some (urlRequiredError, st)
  | some (JValue.str u) =>
    let original_url := pyStrip u
    if validate_url original_url then
      match findByUrl st.records original_url with
      | some existing => some (⟨201, some (to_dict existing), none⟩, st)
      | none =>
        match generate_short_code st.records 6 rand fuel with
        | none => none
        | some code =>
          let new_url : URLRecord :=
            ⟨st.next_id, original_url, code, now, now, 0⟩
          if commitOk then
            some (⟨201, some (to_dict new_url), none⟩, ⟨st.records ++ [new_url], st.next_id + 1⟩)
          else some (internalError, st)
    else some (invalidUrlError, st)
  | some _ => some (internalError, st)

/-- GET /shorten/{code}: look up, bump access_count, commit, serialize. -/
def get_original_url (st : DB) (short_code : String) (commitOk : Bool) : HttpResult × DB :=
  match findByCode st.records short_code with
  | none => (notFoundError, st)
  | some r =>
    let r' := { r with access_count := r.access_count + 1 }
    if commitOk then
      (⟨200, some (to_dict r'), none⟩, ⟨replaceById st.records r.id r', st.next_id⟩)
    else (internalError, st)

/-- PUT /shorten/{code}: presence check, then lookup, then strip and
validate the new url, then write.  A non-string url value makes strip
raise after the lookup. -/
def update_short_url (st : DB) (short_code : String) (urlField : Option JValue)
    (now : PyDateTime) (commitOk : Bool) : HttpResult × DB :=
  match urlField with
  | none => (urlRequiredError, st)
  | some v =>
    match findByCode st.records short_code with
    | none => (notFoundError, st)
    | some r =>
      match v with
      | JValue.str u =>
        let new_url := pyStrip u
        if validate_url new_url then
          let r' := { r with original_url := new_url, updated_at := now }
          if commitOk then
            (⟨200, some (to_dict r'), none⟩, ⟨replaceById st.records r.id r', st.next_id⟩)
          else (internalError, st)
        else (invalidUrlError, st)
      | _ => (internalError, st)

/-- DELETE /shorten/{code}. -/
def delete_short_url (st : DB) (short_code : String) (commitOk : Bool) : HttpResult × DB :=
  match findByCode st.records short_code with
  | none => (notFoundError, st)
  | some r =>
    if commitOk then
      (⟨204, none, none⟩, ⟨st.records.filter fun x => !(x.id == r.id), st.next_id⟩)
    else (internalError, st)

/-- GET /shorten/{code}/stats: read-only, no counter increment. -/
def get_url_stats (st : DB) (short_code : String) : HttpResult × DB :=
  match findByCode st.records short_code with
  | none => (notFoundError, st)
  | some r => (⟨200, some (to_dict r), none⟩, st)

/-- GET /{code}: bump access_count, commit, 301 to the original URL. -/
def redirect_to_url (st : DB) (short_code : String) (commitOk : Bool) : HttpResult × DB :=
  match findByCode st.records short_code with
  | none => (notFoundError, st)
  | some r =>
    let r' := { r with access_count := r.access_count + 1 }
    if commitOk then
      (⟨301, none, some r.original_url⟩, ⟨replaceById st.records r.id r', st.next_id⟩)
    else (internalError, st)

/-- One API request with everything the environment supplies for it. -/
inductive Op where
  | createOp (urlField : Option JValue) (rand : Nat → Nat → Nat) (fuel : Nat)
      (now : PyDateTime) (commitOk : Bool)
  | readOp (code : String) (commitOk : Bool)
  | updateOp (code : String) (urlField : Option JValue) (now : PyDateTime) (commitOk : Bool)
  | deleteOp (code : String) (commitOk : Bool)
  | statsOp (code : String)
  | redirectOp (code : String) (commitOk : Bool)

/-- Dispatch one request (none only when the generator loop never
terminates within its fuel). -/
def applyOp (st : DB) : Op → Option (HttpResult × DB)
  | Op.createOp u rand fuel now c => create_short_url st u rand fuel now c
  | Op.readOp code c => some (get_original_url st code c)
  | Op.updateOp code u now c => some (update_short_url st code u now c)
  | Op.deleteOp code c => some (delete_short_url st code c)
  | Op.statsOp code => some (get_url_stats st code)
  | Op.redirectOp code c => some (redirect_to_url st code c)

/-- The commit flag an operation was given (stats never commits). -/
def opCommitOk : Op → Bool
  | Op.createOp _ _ _ _ c => c
  | Op.readOp _ c => c
  | Op.updateOp _ _ _ c => c
  | Op.deleteOp _ c => c
  | Op.statsOp _ => false
  | Op.redirectOp _ c => c

/-- States the service can be in: the store the app boots with, plus
anything a sequence of requests produces. -/
inductive Reachable : DB → Prop where
  | init : Reachable ⟨[], 1⟩
  | step {st : DB} {op : Op} {res : HttpResult} {st' : DB} :
      Reachable st → applyOp st op = some (res, st') → Reachable st'

/-! ## Facts about str.strip -/

lemma dropWhile_head_false {p : Char → Bool} (l : List Char) :
    ∀ x, (l.dropWhile p).head? = some x → p x = false := by
  induction l with
  | nil => intro x h; simp [List.dropWhile] at h
  | cons a t ih =>
    intro x h
    rw [List.dropWhile_cons] at h
    by_cases ha : p a = true
    · rw [if_pos ha] at h; exact ih x h
    · rw [if_neg ha] at h
      cases h
      simpa using ha

lemma dropWhile_idem (p : Char → Bool) (l : List Char) :
    (l.dropWhile p).dropWhile p = l.dropWhile p := by
  induction l with
  | nil => rfl
  | cons a t ih =>
    rw [List.dropWhile_cons]
    by_cases ha : p a = true
    · rw [if_pos ha]; exact ih
    · rw [if_neg ha, List.dropWhile_cons, if_neg ha]

lemma dropWhile_is_suffix (p : Char → Bool) (l : List Char) :
    ∃ t, t ++ l.dropWhile p = l := by
  induction l with
  | nil => exact ⟨[], rfl⟩
  | cons a t ih =>
    rw [List.dropWhile_cons]
    by_cases ha : p a = true
    · rw [if_pos ha]
      rcases ih with ⟨u, hu⟩
      exact ⟨a :: u, by simp [hu]⟩
    · rw [if_neg ha]; exact ⟨[], rfl⟩

lemma dropWhile_eq_self_of_head {p : Char → Bool} (l : List Char)
    (h : ∀ x, l.head? = some x → p x = false) : l.dropWhile p = l := by
  cases l with
  | nil => rfl
  | cons a t =>
    rw [List.dropWhile_cons, if_neg]
    simp [h a rfl]

/-- A stripped list has no leading whitespace left. -/
lemma pyStripList_front (cs : List Char) :
    (pyStripList cs).dropWhile isPySpace = pyStripList cs := by
  apply dropWhile_eq_self_of_head
  intro x hx
  unfold pyStripList at hx
  rw [List.head?_reverse] at hx
  have hY : ((cs.dropWhile isPySpace).reverse.dropWhile isPySpace) ≠ [] := by
    intro hnil; rw [hnil] at hx; simp at hx
  rcases dropWhile_is_suffix isPySpace (cs.dropWhile isPySpace).reverse with ⟨t, ht⟩
  have h1 : ((cs.dropWhile isPySpace).reverse).getLast? = some x := by
    rw [← ht, List.getLast?_append_of_ne_nil _ hY]; exact hx
  rw [List.getLast?_reverse] at h1
  exact dropWhile_head_false cs x h1

lemma pyStripList_idem (cs : List Char) :
    pyStripList (pyStripList cs) = pyStripList cs := by
  conv_lhs => rw [pyStripList]
  rw [pyStripList_front cs]
  unfold pyStripList
  rw [List.reverse_reverse, dropWhile_idem]

lemma pyStrip_idem (s : String) : pyStrip (pyStrip s) = pyStrip s := by
  simp [pyStrip, pyStripList_idem]

/-! ## Structural facts about the step function -/

lemma bump_id (rec : URLRecord) :
    ({ rec with access_count := rec.access_count + 1 } : URLRecord).id = rec.id := rfl

lemma upd_id (rec : URLRecord) (u : String) (t : PyDateTime) :
    ({ rec with original_url := u, updated_at := t } : URLRecord).id = rec.id := rfl

lemma mem_replaceById {l : List URLRecord} {i : Nat} {r' y : URLRecord}
    (hy : y ∈ replaceById l i r') : y = r' ∨ y ∈ l := by
  unfold replaceById at hy
  rcases List.mem_map.mp hy with ⟨x, hx, hfx⟩
  by_cases hid : (x.id == i) = true
  · rw [if_pos hid] at hfx; exact Or.inl hfx.symm
  · rw [if_neg hid] at hfx; exact Or.inr (hfx ▸ hx)

lemma replaceById_ids {l : List URLRecord} {i : Nat} {r' : URLRecord} (hr : r'.id = i) :
    (replaceById l i r').map (fun x => x.id) = l.map fun x => x.id := by
  unfold replaceById
  rw [List.map_map]
  apply List.map_congr_left
  intro x _
  by_cases hid : (x.id == i) = true
  · simp only [Function.comp, if_pos hid, hr]
    exact (eq_of_beq hid).symm
  · simp only [Function.comp, if_neg hid]

/-- In a list whose ids are pairwise distinct, an id determines the
record. -/
lemma nodup_same_id {l : List URLRecord} (hn : (l.map fun x => x.id).Nodup)
    {a b : URLRecord} (ha : a ∈ l) (hb : b ∈ l) (hab : a.id = b.id) : a = b :=
  List.inj_on_of_nodup_map hn ha hb hab

lemma findByCode_mem {l : List URLRecord} {code : String} {r : URLRecord}
    (h : findByCode l code = some r) : r ∈ l := by
  unfold findByCode at h
  exact List.mem_of_find?_eq_some h

lemma findByCode_code {l : List URLRecord} {code : String} {r : URLRecord}
    (h : findByCode l code = some r) : r.short_code = code := by
  unfold findByCode at h
  have := List.find?_some h
  exact eq_of_beq this

lemma findByUrl_mem {l : List URLRecord} {url : String} {r : URLRecord}
    (h : findByUrl l url = some r) : r ∈ l := by
  unfold findByUrl at h
  exact List.mem_of_find?_eq_some h

lemma findByUrl_url {l : List URLRecord} {url : String} {r : URLRecord}
    (h : findByUrl l url = some r) : r.original_url = url := by
  unfold findByUrl at h
  have := List.find?_some h
  exact eq_of_beq this

/-- Everything one request can do to the record list: leave it alone,
append one fresh record with access_count 0 and a stripped URL, bump
one existing record's counter, rewrite one existing record's URL (to a
stripped value) and updated_at, or delete one record. -/
theorem applyOp_cases {st : DB} {op : Op} {res : HttpResult} {st' : DB}
    (h : applyOp st op = some (res, st')) :
    (st'.records = st.records ∧ st'.next_id = st.next_id) ∨
    (∃ rec : URLRecord, st'.records = st.records ++ [rec] ∧ st'.next_id = st.next_id + 1 ∧
      rec.id = st.next_id ∧ rec.access_count = 0 ∧ pyStrip rec.original_url = rec.original_url) ∨
    (∃ rec ∈ st.records, st'.records = replaceById st.records rec.id
        { rec with access_count := rec.access_count + 1 } ∧ st'.next_id = st.next_id) ∨
    (∃ rec ∈ st.records, ∃ u t, pyStrip u = u ∧
      st'.records = replaceById st.records rec.id
        { rec with original_url := u, updated_at := t } ∧ st'.next_id = st.next_id) ∨
    (∃ rec : URLRecord, st'.records = st.records.filter (fun x => !(x.id == rec.id)) ∧
      st'.next_id = st.next_id) := by
  cases op with
  | createOp u rand fuel now c =>
    simp only [applyOp, create_short_url] at h
    split at h
    · cases h; exact Or.inl ⟨rfl, rfl⟩
    · split at h
      · split at h
        · cases h; exact Or.inl ⟨rfl, rfl⟩
        · split at h
          · exact absurd h (by simp)
          · split at h
            · cases h
              exact Or.inr (Or.inl ⟨_, rfl, rfl, rfl, rfl, pyStrip_idem _⟩)
            · cases h; exact Or.inl ⟨rfl, rfl⟩
      · cases h; exact Or.inl ⟨rfl, rfl⟩
    · cases h; exact Or.inl ⟨rfl, rfl⟩
  | readOp code c =>
    simp only [applyOp, get_original_url] at h
    split at h
    · cases h; exact Or.inl ⟨rfl, rfl⟩
    · rename_i r hf
      split at h
      · cases h
        exact Or.inr (Or.inr (Or.inl ⟨r, findByCode_mem hf, rfl, rfl⟩))
      · cases h; exact Or.inl ⟨rfl, rfl⟩
  | updateOp code u now c =>
    simp only [applyOp, update_short_url] at h
    split at h
    · cases h; exact Or.inl ⟨rfl, rfl⟩
    · split at h
      · cases h; exact Or.inl ⟨rfl, rfl⟩
      · rename_i r hf
        split at h
        · split at h
          · split at h
            · cases h
              exact Or.inr (Or.inr (Or.inr (Or.inl
                ⟨r, findByCode_mem hf, _, now, pyStrip_idem _, rfl, rfl⟩)))
            · cases h; exact Or.inl ⟨rfl, rfl⟩
          · cases h; exact Or.inl ⟨rfl, rfl⟩
        · cases h; exact Or.inl ⟨rfl, rfl⟩
  | deleteOp code c =>
    simp only [applyOp, delete_short_url] at h
    split at h
    · cases h; exact Or.inl ⟨rfl, rfl⟩
    · rename_i r hf
      split at h
      · cases h
        exact Or.inr (Or.inr (Or.inr (Or.inr ⟨r, rfl, rfl⟩)))
      · cases h; exact Or.inl ⟨rfl, rfl⟩
  | statsOp code =>
    simp only [applyOp, get_url_stats] at h
    split at h
    · cases h; exact Or.inl ⟨rfl, rfl⟩
    · cases h; exact Or.inl ⟨rfl, rfl⟩
  | redirectOp code c =>
    simp only [applyOp, redirect_to_url] at h
    split at h
    · cases h; exact Or.inl ⟨rfl, rfl⟩
    · rename_i r hf
      split at h
      · cases h
        exact Or.inr (Or.inr (Or.inl ⟨r, findByCode_mem hf, rfl, rfl⟩))
      · cases h; exact Or.inl ⟨rfl, rfl⟩

/-! ## Data-model invariants over reachable states -/

/-- Counters are non-negative, ids sit below the autoincrement counter
and are pairwise distinct. -/
def DBInv (st : DB) : Prop :=
  (∀ r ∈ st.records, 0 ≤ r.access_count) ∧
  (∀ r ∈ st.records, r.id < st.next_id) ∧
  (st.records.map fun x => x.id).Nodup

lemma DBInv_init : DBInv ⟨[], 1⟩ := by
  refine ⟨?_, ?_, ?_⟩ <;> simp

lemma DBInv_step {st : DB} {op : Op} {res : HttpResult} {st' : DB}
    (hinv : DBInv st) (h : applyOp st op = some (res, st')) : DBInv st' := by
  obtain ⟨hcnt, hid, hnd⟩ := hinv
  rcases applyOp_cases h with ⟨hr, hn⟩ | ⟨rec, hr, hn, hrid, hrc, -⟩ |
    ⟨rec, hrec, hr, hn⟩ | ⟨rec, hrec, u, t, hu, hr, hn⟩ | ⟨rec, hr, hn⟩
  · refine ⟨?_, ?_, ?_⟩
    · intro r hrm; rw [hr] at hrm; exact hcnt r hrm
    · intro r hrm; rw [hr] at hrm; rw [hn]; exact hid r hrm
    · rw [hr]; exact hnd
  · refine ⟨?_, ?_, ?_⟩
    · intro r hrm; rw [hr] at hrm
      rcases List.mem_append.mp hrm with hm | hm
      · exact hcnt r hm
      · rw [List.mem_singleton] at hm; rw [hm, hrc]
    · intro r hrm; rw [hr] at hrm; rw [hn]
      rcases List.mem_append.mp hrm with hm | hm
      · exact Nat.lt_succ_of_lt (hid r hm)
      · rw [List.mem_singleton] at hm; rw [hm, hrid]; exact Nat.lt_succ_self _
    · rw [hr, List.map_append, List.nodup_append]
      refine ⟨hnd, by simp, ?_⟩
      intro a ha hb
      rcases List.mem_map.mp ha with ⟨x, hx, rfl⟩
      simp only [List.map_cons, List.map_nil, List.mem_singleton] at hb
      have h1 : x.id < st.next_id := hid x hx
      rw [hb, hrid] at h1
      exact absurd h1 (lt_irrefl _)
  · refine ⟨?_, ?_, ?_⟩
    · intro r hrm; rw [hr] at hrm
      rcases mem_replaceById hrm with rfl | hm
      · have := hcnt rec hrec; simp only []; omega
      · exact hcnt r hm
    · intro r hrm; rw [hr] at hrm; rw [hn]
      rcases mem_replaceById hrm with rfl | hm
      · exact hid rec hrec
      · exact hid r hm
    · rw [hr, replaceById_ids (bump_id rec)]; exact hnd
  · refine ⟨?_, ?_, ?_⟩
    · intro r hrm; rw [hr] at hrm
      rcases mem_replaceById hrm with rfl | hm
      · exact hcnt rec hrec
      · exact hcnt r hm
    · intro r hrm; rw [hr] at hrm; rw [hn]
      rcases mem_replaceById hrm with rfl | hm
      · exact hid rec hrec
      · exact hid r hm
    · rw [hr, replaceById_ids (upd_id rec u t)]; exact hnd
  · refine ⟨?_, ?_, ?_⟩
    · intro r hrm; rw [hr] at hrm; exact hcnt r (List.mem_filter.mp hrm).1
    · intro r hrm; rw [hr] at hrm; rw [hn]; exact hid r (List.mem_filter.mp hrm).1
    · rw [hr]
      exact List.Nodup.sublist ((List.filter_sublist _).map _) hnd

theorem reachable_DBInv {st : DB} (h : Reachable st) : DBInv st := by
  induction h with
  | init => exact DBInv_init
  | step _ happ ih => exact DBInv_step ih happ

/-- No request decreases the access_count of a surviving record. -/
lemma step_access_mono {st : DB} {op : Op} {res : HttpResult} {st' : DB}
    (hinv : DBInv st) (h : applyOp st op = some (res, st')) :
    ∀ r ∈ st.records, ∀ r2 ∈ st'.records, r.id = r2.id →
      r.access_count ≤ r2.access_count := by
  obtain ⟨hcnt, hid, hnd⟩ := hinv
  intro r hrm r2 hr2m hid12
  rcases applyOp_cases h with ⟨hr, -⟩ | ⟨rec, hr, -, hrid, -, -⟩ |
    ⟨rec, hrec, hr, -⟩ | ⟨rec, hrec, u, t, -, hr, -⟩ | ⟨rec, hr, -⟩
  · rw [hr] at hr2m
    rw [nodup_same_id hnd hrm hr2m hid12]
  · rw [hr] at hr2m
    rcases List.mem_append.mp hr2m with hm | hm
    · rw [nodup_same_id hnd hrm hm hid12]
    · rw [List.mem_singleton] at hm
      have : r.id < st.next_id := hid r hrm
      rw [hm, hrid] at hid12
      omega
  · rw [hr] at hr2m
    rcases mem_replaceById hr2m with rfl | hm
    · have : r = rec := nodup_same_id hnd hrm hrec hid12
      rw [this]; simp only []; omega
    · rw [nodup_same_id hnd hrm hm hid12]
  · rw [hr] at hr2m
    rcases mem_replaceById hr2m with rfl | hm
    · have : r = rec := nodup_same_id hnd hrm hrec hid12
      rw [this]
    · rw [nodup_same_id hnd hrm hm hid12]
  · rw [hr] at hr2m
    exact le_of_eq
      (congrArg _ (nodup_same_id hnd hrm (List.mem_filter.mp hr2m).1 hid12))

/-- A record inserted by create starts with access_count 0. -/
lemma create_new_record_zero {st : DB} {u : Option JValue} {rand : Nat → Nat → Nat}
    {fuel : Nat} {now : PyDateTime} {c : Bool} {res : HttpResult} {st' : DB}
    (h : create_short_url st u rand fuel now c = some (res, st')) :
    ∀ r2 ∈ st'.records, r2 ∉ st.records → r2.access_count = 0 := by
  simp only [create_short_url] at h
  split at h
  · cases h; intro r2 h2 h3; exact absurd h2 h3
  · split at h
    · split at h
      · cases h; intro r2 h2 h3; exact absurd h2 h3
      · split at h
        · exact absurd h (by simp)
        · split at h
          · cases h
            intro r2 h2 h3
            rcases List.mem_append.mp h2 with hm | hm
            · exact absurd hm h3
            · rw [List.mem_singleton] at hm; rw [hm]
          · cases h; intro r2 h2 h3; exact absurd h2 h3
    · cases h; intro r2 h2 h3; exact absurd h2 h3
  · cases h; intro r2 h2 h3; exact absurd h2 h3

/-- C3: in every reachable state every access_count is non-negative; no
operation ever decreases the counter of a record that survives it (Read
and Redirect only increment); and a record inserted by Create starts at
access_count 0. -/
theorem C3_access_count_invariant {st : DB} (hre : Reachable st) :
    (∀ r ∈ st.records, 0 ≤ r.access_count) ∧
    (∀ (op : Op) (res : HttpResult) (st' : DB), applyOp st op = some (res, st') →
      ∀ r ∈ st.records, ∀ r2 ∈ st'.records, r.id = r2.id →
        r.access_count ≤ r2.access_count) ∧
    (∀ (u : Option JValue) (rand : Nat → Nat → Nat) (fuel : Nat) (now : PyDateTime)
      (c : Bool) (res : HttpResult) (st' : DB),
      create_short_url st u rand fuel now c = some (res, st') →
      ∀ r2 ∈ st'.records, r2 ∉ st.records → r2.access_count = 0) :=
  ⟨(reachable_DBInv hre).1,
   fun _ _ _ h => step_access_mono (reachable_DBInv hre) h,
   fun _ _ _ _ _ _ _ h => create_new_record_zero h⟩

/-- C3 witness: the invariant instantiated at the initial store. -/
theorem C3_access_count_invariant_witness :
    (∀ r ∈ (⟨[], 1⟩ : DB).records, 0 ≤ r.access_count) ∧
    (∀ (op : Op) (res : HttpResult) (st' : DB),
      applyOp ⟨[], 1⟩ op = some (res, st') →
      ∀ r ∈ (⟨[], 1⟩ : DB).records, ∀ r2 ∈ st'.records, r.id = r2.id →
        r.access_count ≤ r2.access_count) ∧
    (∀ (u : Option JValue) (rand : Nat → Nat → Nat) (fuel : Nat) (now : PyDateTime)
      (c : Bool) (res : HttpResult) (st' : DB),
      create_short_url ⟨[], 1⟩ u rand fuel now c = some (res, st') →
      ∀ r2 ∈ st'.records, r2 ∉ (⟨[], 1⟩ : DB).records → r2.access_count = 0) :=
  C3_access_count_invariant Reachable.init

/-- C1: every code returned by generate_short_code with length 6 has
exactly 6 characters, each an ASCII letter or digit, and the existence
check against the store returns false for it at the moment of return. -/
theorem C1_generated_code_spec (records : List URLRecord) (rand : Nat → Nat → Nat)
    (fuel : Nat) (c : String)
    (h : generate_short_code records 6 rand fuel = some c) :
    c.length = 6 ∧ (∀ ch ∈ c.data, ch.isAlphanum = true) ∧ existsCode records c = false := by
  induction fuel with
  | zero => simp [generate_short_code] at h
  | succ fuel ih =>
    rw [generate_short_code] at h
    by_cases hex : existsCode records (drawCode 6 (rand fuel)) = true
    · rw [if_pos hex] at h
      exact ih h
    · rw [if_neg hex] at h
      cases h
      exact ⟨drawCode_length _ _, drawCode_chars _ _, by simpa using hex⟩

/-- C1 witness: a concrete run of the generator on the empty store. -/
theorem C1_generated_code_spec_witness :
    "aaaaaa".length = 6 ∧ (∀ ch ∈ "aaaaaa".data, ch.isAlphanum = true) ∧
      existsCode [] "aaaaaa" = false :=
  C1_generated_code_spec [] (fun _ _ => 0) 1 "aaaaaa" (by decide)

/-! ## Stored URLs never carry edge whitespace -/

lemma stripped_step {st : DB} {op : Op} {res : HttpResult} {st' : DB}
    (h : applyOp st op = some (res, st'))
    (hs : ∀ r ∈ st.records, pyStrip r.original_url = r.original_url) :
    ∀ r ∈ st'.records, pyStrip r.original_url = r.original_url := by
  intro r hrm
  rcases applyOp_cases h with ⟨hr, -⟩ | ⟨rec, hr, -, -, -, hu⟩ |
    ⟨rec, hrec, hr, -⟩ | ⟨rec, hrec, u, t, hu, hr, -⟩ | ⟨rec, hr, -⟩
  · rw [hr] at hrm; exact hs r hrm
  · rw [hr] at hrm
    rcases List.mem_append.mp hrm with hm | hm
    · exact hs r hm
    · rw [List.mem_singleton] at hm; rw [hm]; exact hu
  · rw [hr] at hrm
    rcases mem_replaceById hrm with rfl | hm
    · exact hs rec hrec
    · exact hs r hm
  · rw [hr] at hrm
    rcases mem_replaceById hrm with rfl | hm
    · exact hu
    · exact hs r hm
  · rw [hr] at hrm; exact hs r (List.mem_filter.mp hrm).1

theorem reachable_stripped {st : DB} (h : Reachable st) :
    ∀ r ∈ st.records, pyStrip r.original_url = r.original_url := by
  induction h with
  | init => intro r hrm; simp at hrm
  | step _ happ ih => exact stripped_step happ ih

/-- C8: Create and Update run str.strip on the submitted url before
validating and storing it, so submitting u behaves exactly like
submitting pyStrip u, and in every reachable state no stored
original_url carries leading or trailing whitespace. -/
theorem C8_strip_before_store :
    (∀ (st : DB) (u : String) (rand : Nat → Nat → Nat) (fuel : Nat) (now : PyDateTime)
      (c : Bool),
      create_short_url st (some (JValue.str u)) rand fuel now c =
        create_short_url st (some (JValue.str (pyStrip u))) rand fuel now c) ∧
    (∀ (st : DB) (code : String) (u : String) (now : PyDateTime) (c : Bool),
      update_short_url st code (some (JValue.str u)) now c =
        update_short_url st code (some (JValue.str (pyStrip u))) now c) ∧
    (∀ st : DB, Reachable st → ∀ r ∈ st.records, pyStrip r.original_url = r.original_url) := by
  refine ⟨?_, ?_, fun st h => reachable_stripped h⟩
  · intro st u rand fuel now c
    simp only [create_short_url, pyStrip_idem]
  · intro st code u now c
    simp only [update_short_url, pyStrip_idem]

/-- C8 witness: the strip equivalences at a concrete request and the
stored-URL property at the initial store. -/
theorem C8_strip_before_store_witness :
    create_short_url ⟨[], 1⟩ (some (JValue.str "  http://ab.co ")) (fun _ _ => 0) 1
        ⟨2024, 1, 2, 3, 4, 5, 123456⟩ true =
      create_short_url ⟨[], 1⟩ (some (JValue.str (pyStrip "  http://ab.co "))) (fun _ _ => 0) 1
        ⟨2024, 1, 2, 3, 4, 5, 123456⟩ true ∧
    update_short_url ⟨[], 1⟩ "abc123" (some (JValue.str "  http://ab.co ")) ⟨2024, 1, 2, 3, 4, 5, 123456⟩ true =
      update_short_url ⟨[], 1⟩ "abc123" (some (JValue.str (pyStrip "  http://ab.co "))) ⟨2024, 1, 2, 3, 4, 5, 123456⟩ true ∧
    (∀ r ∈ (⟨[], 1⟩ : DB).records, pyStrip r.original_url = r.original_url) :=
  ⟨C8_strip_before_store.1 ⟨[], 1⟩ "  http://ab.co " (fun _ _ => 0) 1 ⟨2024, 1, 2, 3, 4, 5, 123456⟩ true,
   C8_strip_before_store.2.1 ⟨[], 1⟩ "abc123" "  http://ab.co " ⟨2024, 1, 2, 3, 4, 5, 123456⟩ true,
   C8_strip_before_store.2.2 ⟨[], 1⟩ Reachable.init⟩

/-- C9: a url field that is present but not a string makes
data['url'].strip() raise; the except-branch rolls back and answers the
generic 500, leaving the store unchanged. -/
theorem C9_nonstring_url_500 (st : DB) (n : Int) (rand : Nat → Nat → Nat) (fuel : Nat)
    (now : PyDateTime) (c : Bool) :
    create_short_url st (some (JValue.int n)) rand fuel now c = some (internalError, st) := by
  simp only [create_short_url]

/-! ## Persistence failures -/

/-- With a failing commit no request changes the persisted store. -/
lemma commit_fail_unchanged {st : DB} {op : Op} {res : HttpResult} {st' : DB}
    (hco : opCommitOk op = false) (h : applyOp st op = some (res, st')) : st' = st := by
  cases op with
  | createOp u rand fuel now c =>
    simp only [opCommitOk] at hco
    subst hco
    simp only [applyOp, create_short_url] at h
    split at h
    · cases h; rfl
    · split at h
      · split at h
        · cases h; rfl
        · split at h
          · exact absurd h (by simp)
          · split at h
            · simp at *
            · cases h; rfl
      · cases h; rfl
    · cases h; rfl
  | readOp code c =>
    simp only [opCommitOk] at hco
    subst hco
    simp only [applyOp, get_original_url] at h
    split at h
    · cases h; rfl
    · split at h
      · simp at *
      · cases h; rfl
  | updateOp code u now c =>
    simp only [opCommitOk] at hco
    subst hco
    simp only [applyOp, update_short_url] at h
    split at h
    · cases h; rfl
    · split at h
      · cases h; rfl
      · split at h
        · split at h
          · split at h
            · simp at *
            · cases h; rfl
          · cases h; rfl
        · cases h; rfl
  | deleteOp code c =>
    simp only [opCommitOk] at hco
    subst hco
    simp only [applyOp, delete_short_url] at h
    split at h
    · cases h; rfl
    · split at h
      · simp at *
      · cases h; rfl
  | statsOp code =>
    simp only [applyOp, get_url_stats] at h
    split at h
    · cases h; rfl
    · cases h; rfl
  | redirectOp code c =>
    simp only [opCommitOk] at hco
    subst hco
    simp only [applyOp, redirect_to_url] at h
    split at h
    · cases h; rfl
    · split at h
      · simp at *
      · cases h; rfl

/-- C5: when the commit of a mutating request fails, the request
answers the generic 500 error and the persisted record set is exactly
what it was before the request: no partial write is visible.  The first
conjunct says no request with a failing commit changes the store; the
rest say each mutating handler that reaches its commit returns 500. -/
theorem C5_commit_failure_atomic :
    (∀ (st : DB) (op : Op) (res : HttpResult) (st' : DB), opCommitOk op = false →
      applyOp st op = some (res, st') → st' = st) ∧
    (∀ (st : DB) (code : String) (r : URLRecord), findByCode st.records code = some r →
      get_original_url st code false = (internalError, st)) ∧
    (∀ (st : DB) (code : String) (r : URLRecord) (u : String) (now : PyDateTime),
      findByCode st.records code = some r → validate_url (pyStrip u) = true →
      update_short_url st code (some (JValue.str u)) now false = (internalError, st)) ∧
    (∀ (st : DB) (code : String) (r : URLRecord), findByCode st.records code = some r →
      delete_short_url st code false = (internalError, st)) ∧
    (∀ (st : DB) (code : String) (r : URLRecord), findByCode st.records code = some r →
      redirect_to_url st code false = (internalError, st)) ∧
    (∀ (st : DB) (u : String) (rand : Nat → Nat → Nat) (fuel : Nat) (now : PyDateTime)
      (code : String), validate_url (pyStrip u) = true →
      findByUrl st.records (pyStrip u) = none →
      generate_short_code st.records 6 rand fuel = some code →
      create_short_url st (some (JValue.str u)) rand fuel now false =
        some (internalError, st)) := by
  refine ⟨fun st op res st' hco h => commit_fail_unchanged hco h, ?_, ?_, ?_, ?_, ?_⟩
  · intro st code r hf
    simp [get_original_url, hf]
  · intro st code r u now hf hv
    simp [update_short_url, hf, hv]
  · intro st code r hf
    simp [delete_short_url, hf]
  · intro st code r hf
    simp [redirect_to_url, hf]
  · intro st u rand fuel now code hv hfu hg
    simp [create_short_url, hv, hfu, hg]

/-- C5 witness: concrete failing commits on a one-record store and on a
fresh create. -/
theorem C5_commit_failure_atomic_witness :
    (⟨[⟨1, "http://ab.co", "abc123", ⟨2024, 1, 2, 3, 4, 5, 123456⟩,
        ⟨2024, 1, 2, 3, 4, 5, 123456⟩, 0⟩], 2⟩ : DB) =
      ⟨[⟨1, "http://ab.co", "abc123", ⟨2024, 1, 2, 3, 4, 5, 123456⟩,
        ⟨2024, 1, 2, 3, 4, 5, 123456⟩, 0⟩], 2⟩ ∧
    get_original_url ⟨[⟨1, "http://ab.co", "abc123", ⟨2024, 1, 2, 3, 4, 5, 123456⟩,
        ⟨2024, 1, 2, 3, 4, 5, 123456⟩, 0⟩], 2⟩ "abc123" false =
      (internalError, ⟨[⟨1, "http://ab.co", "abc123", ⟨2024, 1, 2, 3, 4, 5, 123456⟩,
        ⟨2024, 1, 2, 3, 4, 5, 123456⟩, 0⟩], 2⟩) ∧
    create_short_url ⟨[], 1⟩ (some (JValue.str "http://ab.co")) (fun _ _ => 0) 1
        ⟨2024, 1, 2, 3, 4, 5, 123456⟩ false = some (internalError, ⟨[], 1⟩) := by
  refine ⟨?_, ?_, ?_⟩
  · exact C5_commit_failure_atomic.1 _
      (Op.readOp "abc123" false) internalError _ rfl (by decide)
  · exact C5_commit_failure_atomic.2.1 _ "abc123"
      ⟨1, "http://ab.co", "abc123", ⟨2024, 1, 2, 3, 4, 5, 123456⟩,
        ⟨2024, 1, 2, 3, 4, 5, 123456⟩, 0⟩ (by decide)
  · exact C5_commit_failure_atomic.2.2.2.2.2 ⟨[], 1⟩ "http://ab.co" (fun _ _ => 0) 1
      ⟨2024, 1, 2, 3, 4, 5, 123456⟩ "aaaaaa" (by decide) (by decide) (by decide)

/-! ## Idempotent create -/

/-- Number of stored records carrying a given original_url. -/
def countMatching (records : List URLRecord) (url : String) : Nat :=
  (records.filter fun r => r.original_url == url).length

/-- The shortCode entry of a response body. -/
def shortCodeOf (res : HttpResult) : Option JValue :=
  match res.body with
  | some kvs => List.lookup "shortCode" kvs
  | none => none

lemma lookup_shortCode_to_dict (r : URLRecord) :
    List.lookup "shortCode" (to_dict r) = some (JValue.str r.short_code) := rfl

lemma findByUrl_append_one {l : List URLRecord} {url : String} {rec : URLRecord}
    (h : findByUrl l url = none) (hrec : rec.original_url = url) :
    findByUrl (l ++ [rec]) url = some rec := by
  unfold findByUrl at *
  rw [List.find?_append, h, Option.none_or]
  simp [List.find?, hrec]

lemma countMatching_zero {l : List URLRecord} {url : String}
    (h : findByUrl l url = none) : countMatching l url = 0 := by
  unfold findByUrl at h
  unfold countMatching
  rw [List.length_eq_zero]
  rw [List.filter_eq_nil_iff]
  exact List.find?_eq_none.mp h

lemma countMatching_pos {l : List URLRecord} {url : String} {rec : URLRecord}
    (h : findByUrl l url = some rec) : 1 ≤ countMatching l url := by
  unfold countMatching
  have hmem : rec ∈ l.filter fun r => r.original_url == url := by
    rw [List.mem_filter]
    refine ⟨findByUrl_mem h, ?_⟩
    have := findByUrl_url h
    simp [this]
  exact List.length_pos_of_mem hmem

/-- C2: create is idempotent by URL content.  When a record with the
submitted (stripped, valid) URL already exists, Create returns exactly
that record and leaves the store untouched; and two consecutive Creates
with the same URL (starting from a store holding at most one match, no
interleaving mutation) answer the same shortCode and leave exactly one
record for that URL. -/
theorem C2_create_idempotent :
    (∀ (st : DB) (u : String) (rand : Nat → Nat → Nat) (fuel : Nat) (now : PyDateTime)
      (c : Bool) (rec : URLRecord), validate_url (pyStrip u) = true →
      findByUrl st.records (pyStrip u) = some rec →
      create_short_url st (some (JValue.str u)) rand fuel now c =
        some (⟨201, some (to_dict rec), none⟩, st)) ∧
    (∀ (st : DB) (u : String) (rand rand2 : Nat → Nat → Nat) (fuel fuel2 : Nat)
      (now now2 : PyDateTime) (c c2 : Bool) (res1 : HttpResult) (st1 : DB)
      (res2 : HttpResult) (st2 : DB),
      countMatching st.records (pyStrip u) ≤ 1 →
      create_short_url st (some (JValue.str u)) rand fuel now c = some (res1, st1) →
      res1.status = 201 →
      create_short_url st1 (some (JValue.str u)) rand2 fuel2 now2 c2 = some (res2, st2) →
      (∃ code : String, shortCodeOf res1 = some (JValue.str code) ∧
        shortCodeOf res2 = some (JValue.str code)) ∧
      countMatching st2.records (pyStrip u) = 1) := by
  constructor
  · intro st u rand fuel now c rec hv hfu
    simp [create_short_url, hv, hfu]
  · intro st u rand rand2 fuel fuel2 now now2 c c2 res1 st1 res2 st2 hcount h1 h201 h2
    by_cases hv : validate_url (pyStrip u) = true
    · cases hfu : findByUrl st.records (pyStrip u) with
      | some rec =>
        have hx : create_short_url st (some (JValue.str u)) rand fuel now c =
            some (⟨201, some (to_dict rec), none⟩, st) := by
          simp [create_short_url, hv, hfu]
        rw [hx] at h1
        cases h1
        have hx2 : create_short_url st (some (JValue.str u)) rand2 fuel2 now2 c2 =
            some (⟨201, some (to_dict rec), none⟩, st) := by
          simp [create_short_url, hv, hfu]
        rw [hx2] at h2
        cases h2
        refine ⟨⟨rec.short_code, ?_, ?_⟩, ?_⟩
        · simp [shortCodeOf, lookup_shortCode_to_dict]
        · simp [shortCodeOf, lookup_shortCode_to_dict]
        · exact le_antisymm hcount (countMatching_pos hfu)
      | none =>
        cases hg : generate_short_code st.records 6 rand fuel with
        | none =>
          have hx : create_short_url st (some (JValue.str u)) rand fuel now c = none := by
            simp [create_short_url, hv, hfu, hg]
          rw [hx] at h1
          exact absurd h1 (by simp)
        | some code =>
          cases c with
          | false =>
            have hx : create_short_url st (some (JValue.str u)) rand fuel now false =
                some (internalError, st) := by
              simp [create_short_url, hv, hfu, hg]
            rw [hx] at h1
            cases h1
            exact absurd h201 (by simp [internalError])
          | true =>
            have hx : create_short_url st (some (JValue.str u)) rand fuel now true =
                some (⟨201, some (to_dict ⟨st.next_id, pyStrip u, code, now, now, 0⟩), none⟩,
                  ⟨st.records ++ [⟨st.next_id, pyStrip u, code, now, now, 0⟩],
                    st.next_id + 1⟩) := by
              simp [create_short_url, hv, hfu, hg]
            rw [hx] at h1
            cases h1
            have hfu2 : findByUrl (st.records ++ [⟨st.next_id, pyStrip u, code, now, now, 0⟩])
                (pyStrip u) = some ⟨st.next_id, pyStrip u, code, now, now, 0⟩ :=
              findByUrl_append_one hfu rfl
            have hx2 : create_short_url
                ⟨st.records ++ [⟨st.next_id, pyStrip u, code, now, now, 0⟩], st.next_id + 1⟩
                (some (JValue.str u)) rand2 fuel2 now2 c2 =
                some (⟨201, some (to_dict ⟨st.next_id, pyStrip u, code, now, now, 0⟩), none⟩,
                  ⟨st.records ++ [⟨st.next_id, pyStrip u, code, now, now, 0⟩],
                    st.next_id + 1⟩) := by
              simp [create_short_url, hv, hfu2]
            rw [hx2] at h2
            cases h2
            refine ⟨⟨code, ?_, ?_⟩, ?_⟩
            · simp [shortCodeOf, lookup_shortCode_to_dict]
            · simp [shortCodeOf, lookup_shortCode_to_dict]
            · show countMatching (st.records ++ [⟨st.next_id, pyStrip u, code, now, now, 0⟩])
                (pyStrip u) = 1
              unfold countMatching
              rw [List.filter_append, List.length_append]
              have hz : countMatching st.records (pyStrip u) = 0 := countMatching_zero hfu
              unfold countMatching at hz
              rw [hz]
              simp
    · have hx : create_short_url st (some (JValue.str u)) rand fuel now c =
          some (invalidUrlError, st) := by
        simp only [create_short_url, if_neg hv]
      rw [hx] at h1
      cases h1
      exact absurd h201 (by simp [invalidUrlError])

/-- C2 witness: two consecutive creates of the same URL on the empty
store answer the same shortCode and leave one matching record. -/
theorem C2_create_idempotent_witness :
    (∃ code : String,
      shortCodeOf ⟨201, some (to_dict ⟨1, "http://ab.co", "aaaaaa",
        ⟨2024, 1, 2, 3, 4, 5, 123456⟩, ⟨2024, 1, 2, 3, 4, 5, 123456⟩, 0⟩), none⟩ =
          some (JValue.str code) ∧
      shortCodeOf ⟨201, some (to_dict ⟨1, "http://ab.co", "aaaaaa",
        ⟨2024, 1, 2, 3, 4, 5, 123456⟩, ⟨2024, 1, 2, 3, 4, 5, 123456⟩, 0⟩), none⟩ =
          some (JValue.str code)) ∧
    countMatching (⟨[⟨1, "http://ab.co", "aaaaaa", ⟨2024, 1, 2, 3, 4, 5, 123456⟩,
      ⟨2024, 1, 2, 3, 4, 5, 123456⟩, 0⟩], 2⟩ : DB).records (pyStrip "http://ab.co") = 1 :=
  C2_create_idempotent.2 ⟨[], 1⟩ "http://ab.co" (fun _ _ => 0) (fun _ _ => 0) 1 1
    ⟨2024, 1, 2, 3, 4, 5, 123456⟩ ⟨2024, 1, 2, 3, 4, 5, 123456⟩ true true
    ⟨201, some (to_dict ⟨1, "http://ab.co", "aaaaaa", ⟨2024, 1, 2, 3, 4, 5, 123456⟩,
      ⟨2024, 1, 2, 3, 4, 5, 123456⟩, 0⟩), none⟩
    ⟨[⟨1, "http://ab.co", "aaaaaa", ⟨2024, 1, 2, 3, 4, 5, 123456⟩,
      ⟨2024, 1, 2, 3, 4, 5, 123456⟩, 0⟩], 2⟩
    ⟨201, some (to_dict ⟨1, "http://ab.co", "aaaaaa", ⟨2024, 1, 2, 3, 4, 5, 123456⟩,
      ⟨2024, 1, 2, 3, 4, 5, 123456⟩, 0⟩), none⟩
    ⟨[⟨1, "http://ab.co", "aaaaaa", ⟨2024, 1, 2, 3, 4, 5, 123456⟩,
      ⟨2024, 1, 2, 3, 4, 5, 123456⟩, 0⟩], 2⟩
    (by decide) (by decide) (by decide) (by decide)

/-! ## Update frame -/

/-- C6: for an existing code and a valid new URL, Update rewrites
original_url to the stripped new URL and updated_at to now, answering
200 with the updated record, while short_code, access_count, id and
created_at stay what they were; for a code not in the store Update
answers 404 and changes nothing. -/
theorem C6_update_frame :
    (∀ (st : DB) (code : String) (u : String) (now : PyDateTime) (r : URLRecord),
      findByCode st.records code = some r → validate_url (pyStrip u) = true →
      ∃ r' : URLRecord,
        update_short_url st code (some (JValue.str u)) now true =
          (⟨200, some (to_dict r'), none⟩, ⟨replaceById st.records r.id r', st.next_id⟩) ∧
        r'.original_url = pyStrip u ∧ r'.updated_at = now ∧
        r'.short_code = r.short_code ∧ r'.access_count = r.access_count ∧
        r'.id = r.id ∧ r'.created_at = r.created_at) ∧
    (∀ (st : DB) (code : String) (v : JValue) (now : PyDateTime) (c : Bool),
      findByCode st.records code = none →
      update_short_url st code (some v) now c = (notFoundError, st)) := by
  constructor
  · intro st code u now r hf hv
    refine ⟨{ r with original_url := pyStrip u, updated_at := now }, ?_, rfl, rfl, rfl, rfl, rfl, rfl⟩
    simp [update_short_url, hf, hv]
  · intro st code v now c hf
    cases v <;> simp [update_short_url, hf]

/-- C6 witness: a concrete update on a one-record store and a 404 on
the empty store. -/
theorem C6_update_frame_witness :
    (∃ r' : URLRecord,
      update_short_url ⟨[⟨1, "http://ab.co", "abc123", ⟨2024, 1, 2, 3, 4, 5, 123456⟩,
          ⟨2024, 1, 2, 3, 4, 5, 123456⟩, 7⟩], 2⟩ "abc123"
          (some (JValue.str "http://cd.ef")) ⟨2025, 6, 7, 8, 9, 10, 11⟩ true =
        (⟨200, some (to_dict r'), none⟩,
          ⟨replaceById [⟨1, "http://ab.co", "abc123", ⟨2024, 1, 2, 3, 4, 5, 123456⟩,
            ⟨2024, 1, 2, 3, 4, 5, 123456⟩, 7⟩] 1 r', 2⟩) ∧
      r'.original_url = pyStrip "http://cd.ef" ∧ r'.updated_at = ⟨2025, 6, 7, 8, 9, 10, 11⟩ ∧
      r'.short_code = "abc123" ∧ r'.access_count = 7 ∧ r'.id = 1 ∧
      r'.created_at = ⟨2024, 1, 2, 3, 4, 5, 123456⟩) ∧
    update_short_url ⟨[], 1⟩ "abc123" (some (JValue.str "http://cd.ef"))
      ⟨2025, 6, 7, 8, 9, 10, 11⟩ true = (notFoundError, ⟨[], 1⟩) :=
  ⟨C6_update_frame.1 ⟨[⟨1, "http://ab.co", "abc123", ⟨2024, 1, 2, 3, 4, 5, 123456⟩,
      ⟨2024, 1, 2, 3, 4, 5, 123456⟩, 7⟩], 2⟩ "abc123" "http://cd.ef"
      ⟨2025, 6, 7, 8, 9, 10, 11⟩ ⟨1, "http://ab.co", "abc123", ⟨2024, 1, 2, 3, 4, 5, 123456⟩,
      ⟨2024, 1, 2, 3, 4, 5, 123456⟩, 7⟩ (by decide) (by decide),
   C6_update_frame.2 ⟨[], 1⟩ "abc123" (JValue.str "http://cd.ef")
      ⟨2025, 6, 7, 8, 9, 10, 11⟩ true (by decide)⟩

/-! ## Update validation order -/

/-- C4 counterexample: the claim says an invalid url body against a
nonexistent code yields 400; in the code the lookup precedes the format
check, so it yields 404. -/
theorem C4_counterexample :
    validate_url (pyStrip "not-a-url") = false ∧
    update_short_url ⟨[], 1⟩ "abc123" (some (JValue.str "not-a-url"))
      ⟨2024, 1, 2, 3, 4, 5, 123456⟩ true = (notFoundError, ⟨[], 1⟩) ∧
    notFoundError.status = 404 ∧ (404 : Nat) ≠ 400 := by decide

/-- C4 amended: only the missing-url check runs before the store
lookup (missing url gives 400 whatever the store holds); the URL format
check runs after the lookup, so a present but malformed url yields 400
only when the code exists, and 404 when it does not. -/
theorem C4_update_validation_order :
    (∀ (st : DB) (code : String) (now : PyDateTime) (c : Bool),
      update_short_url st code none now c = (urlRequiredError, st)) ∧
    (∀ (st : DB) (code : String) (v : JValue) (now : PyDateTime) (c : Bool),
      findByCode st.records code = none →
      update_short_url st code (some v) now c = (notFoundError, st)) ∧
    (∀ (st : DB) (code : String) (u : String) (now : PyDateTime) (c : Bool) (r : URLRecord),
      findByCode st.records code = some r → validate_url (pyStrip u) = false →
      update_short_url st code (some (JValue.str u)) now c = (invalidUrlError, st)) := by
  refine ⟨fun st code now c => rfl, ?_, ?_⟩
  · intro st code v now c hf
    cases v <;> simp [update_short_url, hf]
  · intro st code u now c r hf hv
    simp [update_short_url, hf, hv]

/-- C4 witness: the three branches at concrete requests. -/
theorem C4_update_validation_order_witness :
    update_short_url ⟨[], 1⟩ "abc123" none ⟨2024, 1, 2, 3, 4, 5, 123456⟩ true =
      (urlRequiredError, ⟨[], 1⟩) ∧
    update_short_url ⟨[], 1⟩ "abc123" (some (JValue.str "not-a-url"))
      ⟨2024, 1, 2, 3, 4, 5, 123456⟩ true = (notFoundError, ⟨[], 1⟩) ∧
    update_short_url ⟨[⟨1, "http://ab.co", "abc123", ⟨2024, 1, 2, 3, 4, 5, 123456⟩,
        ⟨2024, 1, 2, 3, 4, 5, 123456⟩, 0⟩], 2⟩ "abc123" (some (JValue.str "not-a-url"))
      ⟨2024, 1, 2, 3, 4, 5, 123456⟩ true =
      (invalidUrlError, ⟨[⟨1, "http://ab.co", "abc123", ⟨2024, 1, 2, 3, 4, 5, 123456⟩,
        ⟨2024, 1, 2, 3, 4, 5, 123456⟩, 0⟩], 2⟩) :=
  ⟨C4_update_validation_order.1 ⟨[], 1⟩ "abc123" ⟨2024, 1, 2, 3, 4, 5, 123456⟩ true,
   C4_update_validation_order.2.1 ⟨[], 1⟩ "abc123" (JValue.str "not-a-url")
     ⟨2024, 1, 2, 3, 4, 5, 123456⟩ true (by decide),
   C4_update_validation_order.2.2 ⟨[⟨1, "http://ab.co", "abc123",
       ⟨2024, 1, 2, 3, 4, 5, 123456⟩, ⟨2024, 1, 2, 3, 4, 5, 123456⟩, 0⟩], 2⟩ "abc123"
     "not-a-url" ⟨2024, 1, 2, 3, 4, 5, 123456⟩ true ⟨1, "http://ab.co", "abc123",
       ⟨2024, 1, 2, 3, 4, 5, 123456⟩, ⟨2024, 1, 2, 3, 4, 5, 123456⟩, 0⟩
     (by decide) (by decide)⟩

/-! ## The validator accepts unchecked dotted quads -/

lemma splitOnDot_no_dot {g : List Char} (hg : ∀ c ∈ g, ¬ c = '.') :
    splitOnDot g = [g] := by
  induction g with
  | nil => rfl
  | cons a t ih =>
    have ha : ¬ a = '.' := hg a (List.mem_cons_self _ _)
    rw [splitOnDot, if_neg ha, ih fun c hc => hg c (List.mem_cons_of_mem _ hc)]

lemma splitOnDot_append {g : List Char} (hg : ∀ c ∈ g, ¬ c = '.') (rest : List Char) :
    splitOnDot (g ++ '.' :: rest) = g :: splitOnDot rest := by
  induction g with
  | nil => simp [splitOnDot]
  | cons a t ih =>
    have ha : ¬ a = '.' := hg a (List.mem_cons_self _ _)
    rw [List.cons_append, splitOnDot, if_neg ha,
      ih fun c hc => hg c (List.mem_cons_of_mem _ hc)]

lemma mem_splits_self (cs : List Char) : (cs, ([] : List Char)) ∈ splitsList cs := by
  unfold splitsList
  apply List.mem_map.mpr
  exact ⟨cs.length, by simp [List.mem_range], by simp⟩

lemma regexMatch_http (c : Char) (tail : List Char) :
    regexMatch ('h' :: 't' :: 't' :: 'p' :: ':' :: '/' :: '/' :: c :: tail) =
      hostPortPath (c :: tail) := by
  unfold regexMatch
  rw [show ((('h' :: 't' :: 't' :: 'p' :: ':' :: '/' :: '/' :: c :: tail).take 8).map
      Char.toLower == "https://".data) = false from rfl]
  rw [show ((('h' :: 't' :: 't' :: 'p' :: ':' :: '/' :: '/' :: c :: tail).take 7).map
      Char.toLower == "http://".data) = true from rfl]
  simp

lemma urlparse_http (c : Char) (tail : List Char) :
    urlparseSchemeNetloc ('h' :: 't' :: 't' :: 'p' :: ':' :: '/' :: '/' :: c :: tail) =
      ("http".data, (c :: tail).takeWhile fun x => !(x == '/' || x == '?' || x == '#')) := rfl

/-- C10: the validator accepts any host of four dot-separated groups of
one to three digits, with no range check on the octet values (so
http://999.999.999.999 passes). -/
theorem C10_ipv4_no_range_check (g1 g2 g3 g4 : List Char)
    (h1 : 1 ≤ g1.length ∧ g1.length ≤ 3 ∧ g1.all Char.isDigit = true)
    (h2 : 1 ≤ g2.length ∧ g2.length ≤ 3 ∧ g2.all Char.isDigit = true)
    (h3 : 1 ≤ g3.length ∧ g3.length ≤ 3 ∧ g3.all Char.isDigit = true)
    (h4 : 1 ≤ g4.length ∧ g4.length ≤ 3 ∧ g4.all Char.isDigit = true) :
    validate_url (String.mk ("http://".data ++
      (g1 ++ '.' :: (g2 ++ '.' :: (g3 ++ '.' :: g4))))) = true := by
  obtain ⟨h1len, h1le, h1dig⟩ := h1
  obtain ⟨h2len, h2le, h2dig⟩ := h2
  obtain ⟨h3len, h3le, h3dig⟩ := h3
  obtain ⟨h4len, h4le, h4dig⟩ := h4
  have nd : ∀ (g : List Char), g.all Char.isDigit = true → ∀ c ∈ g, ¬ c = '.' := by
    intro g hg c hc hdot
    have hd := List.all_eq_true.mp hg c hc
    rw [hdot] at hd
    exact absurd hd (by decide)
  cases g1 with
  | nil => simp at h1len
  | cons c1 t1 =>
    have hre : regexMatch ((String.mk ("http://".data ++
        ((c1 :: t1) ++ '.' :: (g2 ++ '.' :: (g3 ++ '.' :: g4))))).data) = true := by
      show regexMatch ('h' :: 't' :: 't' :: 'p' :: ':' :: '/' :: '/' :: c1 ::
        (t1 ++ '.' :: (g2 ++ '.' :: (g3 ++ '.' :: g4)))) = true
      rw [regexMatch_http]
      unfold hostPortPath
      rw [List.any_eq_true]
      refine ⟨(c1 :: (t1 ++ '.' :: (g2 ++ '.' :: (g3 ++ '.' :: g4))), []),
        mem_splits_self _, ?_⟩
      rw [Bool.and_eq_true]
      constructor
      · show hostMatch (c1 :: (t1 ++ '.' :: (g2 ++ '.' :: (g3 ++ '.' :: g4)))) = true
        unfold hostMatch
        rw [Bool.or_eq_true]
        right
        unfold isIpv4Host
        have hsplit : splitOnDot (c1 :: (t1 ++ '.' :: (g2 ++ '.' :: (g3 ++ '.' :: g4)))) =
            [c1 :: t1, g2, g3, g4] := by
          show splitOnDot ((c1 :: t1) ++ '.' :: (g2 ++ '.' :: (g3 ++ '.' :: g4))) = _
          rw [splitOnDot_append (nd _ h1dig), splitOnDot_append (nd _ h2dig),
            splitOnDot_append (nd _ h3dig), splitOnDot_no_dot (nd _ h4dig)]
        rw [hsplit]
        rw [Bool.and_eq_true]
        refine ⟨by simp, ?_⟩
        rw [List.all_eq_true]
        intro g hg
        have hcase : g = c1 :: t1 ∨ g = g2 ∨ g = g3 ∨ g = g4 := by
          simpa using hg
        have hgoal : ∀ (x : List Char), 1 ≤ x.length → x.length ≤ 3 →
            x.all Char.isDigit = true →
            (decide (1 ≤ x.length) && decide (x.length ≤ 3) && x.all Char.isDigit) = true := by
          intro x ha hb hc
          simp [ha, hb, hc]
        rcases hcase with rfl | rfl | rfl | rfl
        · exact hgoal _ h1len h1le h1dig
        · exact hgoal _ h2len h2le h2dig
        · exact hgoal _ h3len h3le h3dig
        · exact hgoal _ h4len h4le h4dig
      · show ((splitsList ([] : List Char)).any fun pt => portOpt pt.1 && pathPart pt.2) = true
        decide
    have hpred : ∀ x : Char, (x.isDigit = true ∨ x = '.') →
        (!(x == '/' || x == '?' || x == '#')) = true := by
      intro x hx
      rcases hx with hd | rfl
      · have d1 : ¬ x = '/' := by intro h; rw [h] at hd; exact absurd hd (by decide)
        have d2 : ¬ x = '?' := by intro h; rw [h] at hd; exact absurd hd (by decide)
        have d3 : ¬ x = '#' := by intro h; rw [h] at hd; exact absurd hd (by decide)
        simp [d1, d2, d3]
      · decide
    have hmemdig : ∀ x ∈ (c1 :: (t1 ++ '.' :: (g2 ++ '.' :: (g3 ++ '.' :: g4)))),
        x.isDigit = true ∨ x = '.' := by
      intro x hx
      rcases List.mem_cons.mp hx with rfl | hx
      · exact Or.inl (List.all_eq_true.mp h1dig _ (List.mem_cons_self _ _))
      · rcases List.mem_append.mp hx with hx | hx
        · exact Or.inl (List.all_eq_true.mp h1dig _ (List.mem_cons_of_mem _ hx))
        · rcases List.mem_cons.mp hx with rfl | hx
          · exact Or.inr rfl
          · rcases List.mem_append.mp hx with hx | hx
            · exact Or.inl (List.all_eq_true.mp h2dig _ hx)
            · rcases List.mem_cons.mp hx with rfl | hx
              · exact Or.inr rfl
              · rcases List.mem_append.mp hx with hx | hx
                · exact Or.inl (List.all_eq_true.mp h3dig _ hx)
                · rcases List.mem_cons.mp hx with rfl | hx
                  · exact Or.inr rfl
                  · exact Or.inl (List.all_eq_true.mp h4dig _ hx)
    have hup : urlparseSchemeNetloc ((String.mk ("http://".data ++
        ((c1 :: t1) ++ '.' :: (g2 ++ '.' :: (g3 ++ '.' :: g4))))).data) =
        ("http".data, c1 :: (t1 ++ '.' :: (g2 ++ '.' :: (g3 ++ '.' :: g4)))) := by
      show urlparseSchemeNetloc ('h' :: 't' :: 't' :: 'p' :: ':' :: '/' :: '/' :: c1 ::
        (t1 ++ '.' :: (g2 ++ '.' :: (g3 ++ '.' :: g4)))) = _
      rw [urlparse_http]
      rw [List.takeWhile_eq_self_iff.mpr fun x hx => hpred x (hmemdig x hx)]
    unfold validate_url
    rw [hre]
    simp only [if_true]
    rw [hup]
    simp

/-- C10 witness: the spec's own example, http://999.999.999.999. -/
theorem C10_ipv4_no_range_check_witness :
    validate_url "http://999.999.999.999" = true := by
  have h := C10_ipv4_no_range_check "999".data "999".data "999".data "999".data
    (by decide) (by decide) (by decide) (by decide)
  have he : "http://999.999.999.999" = String.mk ("http://".data ++
      ("999".data ++ '.' :: ("999".data ++ '.' :: ("999".data ++ '.' :: "999".data)))) := by
    decide
  rw [he]
  exact h

/-! ## Response serialization shape -/

lemma digitChar_isDigit (n : Nat) : (digitChar n).isDigit = true := by
  unfold digitChar
  have h : n % 10 < 10 := Nat.mod_lt _ (by omega)
  generalize hm : n % 10 = m at h ⊢
  interval_cases m <;> decide

lemma natDigitsAux_digits : ∀ (fuel n : Nat) (acc : List Char),
    (∀ c ∈ acc, c.isDigit = true) → ∀ c ∈ natDigitsAux fuel n acc, c.isDigit = true := by
  intro fuel
  induction fuel with
  | zero =>
    intro n acc hacc c hc
    rw [natDigitsAux] at hc
    exact hacc c hc
  | succ fuel ih =>
    intro n acc hacc c hc
    rw [natDigitsAux] at hc
    by_cases h : n < 10
    · rw [if_pos h] at hc
      rcases List.mem_cons.mp hc with rfl | hc
      · exact digitChar_isDigit n
      · exact hacc c hc
    · rw [if_neg h] at hc
      refine ih (n / 10) _ ?_ c hc
      intro x hx
      rcases List.mem_cons.mp hx with rfl | hx
      · exact digitChar_isDigit n
      · exact hacc x hx

lemma natDigitsAux_length_le : ∀ (fuel w n : Nat) (acc : List Char),
    1 ≤ w → n < 10 ^ w → (natDigitsAux fuel n acc).length ≤ w + acc.length := by
  intro fuel
  induction fuel with
  | zero =>
    intro w n acc hw hn
    rw [natDigitsAux]
    omega
  | succ fuel ih =>
    intro w n acc hw hn
    rw [natDigitsAux]
    by_cases h : n < 10
    · rw [if_pos h]
      simp only [List.length_cons]
      omega
    · rw [if_neg h]
      have hw2 : 2 ≤ w := by
        by_contra hc
        have hw1 : w = 1 := by omega
        rw [hw1] at hn
        simp at hn
        omega
      have hn2 : n / 10 < 10 ^ (w - 1) := by
        rw [Nat.div_lt_iff_lt_mul (by omega : (0:Nat) < 10)]
        have hpow : (10:Nat) ^ w = 10 ^ (w - 1) * 10 := by
          conv_lhs => rw [show w = w - 1 + 1 from by omega]
          rw [pow_succ]
        rw [← hpow]
        exact hn
      have := ih (w - 1) (n / 10) (digitChar n :: acc) (by omega) hn2
      simp only [List.length_cons] at this
      omega

lemma padZeros_length {w n : Nat} (h : n < 10 ^ w) (hw : 1 ≤ w) :
    (padZeros w n).length = w := by
  unfold padZeros
  rw [List.length_append, List.length_replicate]
  have hle : (natDigits n).length ≤ w := by
    have := natDigitsAux_length_le (n + 1) w n [] hw h
    simpa [natDigits] using this
  omega

lemma padZeros_digits (w n : Nat) : (padZeros w n).all Char.isDigit = true := by
  rw [List.all_eq_true]
  intro c hc
  rcases List.mem_append.mp hc with hm | hm
  · rw [List.eq_of_mem_replicate hm]; decide
  · exact natDigitsAux_digits (n + 1) n [] (by simp) c hm

/-- Consume exactly w characters satisfying p, or fail. -/
def checkRun (w : Nat) (p : Char → Bool) (cs : List Char) : Option (List Char) :=
  if ((cs.take w).length == w) && (cs.take w).all p then some (cs.drop w) else none

/-- Consume one expected character, or fail. -/
def checkChar (c : Char) (cs : List Char) : Option (List Char) :=
  match cs with
  | [] => none
  | x :: r => if x == c then some r else none

lemma checkRun_append {w : Nat} {p : Char → Bool} {xs r : List Char}
    (hlen : xs.length = w) (hall : xs.all p = true) :
    checkRun w p (xs ++ r) = some r := by
  unfold checkRun
  subst hlen
  rw [List.take_left, List.drop_left]
  simp [hall]

lemma checkChar_cons (c : Char) (r : List Char) : checkChar c (c :: r) = some r := by
  simp [checkChar]

/-- Timestamp shape the spec's URLRecord JSON names, written from the
spec's words: YYYY-MM-DDTHH:MM:SS followed by a dot, a fractional
seconds field of fracw digits, and the UTC suffix Z.  fracw = 3 is the
spec's ISO8601-with-milliseconds reading; fracw = 6 is the
six-digit microsecond field the code's %f conversion emits. -/
def isoShape (fracw : Nat) (cs : List Char) : Bool :=
  (Option.bind (checkRun 4 Char.isDigit cs) fun r1 =>
   Option.bind (checkChar '-' r1) fun r2 =>
   Option.bind (checkRun 2 Char.isDigit r2) fun r3 =>
   Option.bind (checkChar '-' r3) fun r4 =>
   Option.bind (checkRun 2 Char.isDigit r4) fun r5 =>
   Option.bind (checkChar 'T' r5) fun r6 =>
   Option.bind (checkRun 2 Char.isDigit r6) fun r7 =>
   Option.bind (checkChar ':' r7) fun r8 =>
   Option.bind (checkRun 2 Char.isDigit r8) fun r9 =>
   Option.bind (checkChar ':' r9) fun r10 =>
   Option.bind (checkRun 2 Char.isDigit r10) fun r11 =>
   Option.bind (checkChar '.' r11) fun r12 =>
   Option.bind (checkRun fracw Char.isDigit r12) fun r13 =>
   checkChar 'Z' r13) == some []

/-- The field bounds every Python datetime object satisfies. -/
def validDateTime (d : PyDateTime) : Prop :=
  d.year < 10 ^ 4 ∧ d.month < 10 ^ 2 ∧ d.day < 10 ^ 2 ∧ d.hour < 10 ^ 2 ∧
    d.minute < 10 ^ 2 ∧ d.second < 10 ^ 2 ∧ d.microsecond < 10 ^ 6

lemma strftimeISO_shape {d : PyDateTime} (h : validDateTime d) :
    isoShape 6 (strftimeISO d).data = true := by
  obtain ⟨hy, hmo, hd, hh, hmi, hs, hus⟩ := h
  show isoShape 6 (padZeros 4 d.year ++ '-' :: (padZeros 2 d.month ++ '-' ::
    (padZeros 2 d.day ++ 'T' :: (padZeros 2 d.hour ++ ':' :: (padZeros 2 d.minute ++ ':' ::
    (padZeros 2 d.second ++ '.' :: (padZeros 6 d.microsecond ++ ['Z']))))))) = true
  unfold isoShape
  simp only [Option.some_bind, checkChar_cons,
    checkRun_append (padZeros_length hy (by omega)) (padZeros_digits 4 d.year),
    checkRun_append (padZeros_length hmo (by omega)) (padZeros_digits 2 d.month),
    checkRun_append (padZeros_length hd (by omega)) (padZeros_digits 2 d.day),
    checkRun_append (padZeros_length hh (by omega)) (padZeros_digits 2 d.hour),
    checkRun_append (padZeros_length hmi (by omega)) (padZeros_digits 2 d.minute),
    checkRun_append (padZeros_length hs (by omega)) (padZeros_digits 2 d.second),
    checkRun_append (padZeros_length hus (by omega)) (padZeros_digits 6 d.microsecond)]
  decide

/-- C7 counterexample: the serialized createdAt of a concrete record is
the microsecond-precision string, which does not match the claimed
millisecond-precision ISO8601 shape (it does match the six-digit one). -/
theorem C7_counterexample :
    List.lookup "createdAt" (to_dict ⟨1, "http://ab.co", "abc123",
      ⟨2024, 1, 2, 3, 4, 5, 123456⟩, ⟨2024, 1, 2, 3, 4, 5, 123456⟩, 0⟩) =
      some (JValue.str "2024-01-02T03:04:05.123456Z") ∧
    isoShape 3 "2024-01-02T03:04:05.123456Z".data = false ∧
    isoShape 6 "2024-01-02T03:04:05.123456Z".data = true := by decide

/-- C7 amended: to_dict renders id as a decimal string, the original
URL under url, the code under shortCode, accessCount as an integer, and
createdAt/updatedAt as ISO8601 UTC timestamps with microsecond (not
millisecond) precision: six fractional digits and a Z suffix. -/
theorem C7_amended_serialization (r : URLRecord) (h1 : validDateTime r.created_at)
    (h2 : validDateTime r.updated_at) :
    List.lookup "id" (to_dict r) = some (JValue.str (String.mk (natDigits r.id))) ∧
    (∀ c ∈ natDigits r.id, c.isDigit = true) ∧
    List.lookup "url" (to_dict r) = some (JValue.str r.original_url) ∧
    List.lookup "shortCode" (to_dict r) = some (JValue.str r.short_code) ∧
    List.lookup "accessCount" (to_dict r) = some (JValue.int r.access_count) ∧
    List.lookup "createdAt" (to_dict r) = some (JValue.str (strftimeISO r.created_at)) ∧
    isoShape 6 (strftimeISO r.created_at).data = true ∧
    List.lookup "updatedAt" (to_dict r) = some (JValue.str (strftimeISO r.updated_at)) ∧
    isoShape 6 (strftimeISO r.updated_at).data = true :=
  ⟨rfl, natDigitsAux_digits (r.id + 1) r.id [] (by simp), rfl, rfl, rfl, rfl,
    strftimeISO_shape h1, rfl, strftimeISO_shape h2⟩

/-- C7 witness: the amended serialization at a concrete record. -/
theorem C7_amended_serialization_witness :
    List.lookup "id" (to_dict ⟨1, "http://ab.co", "abc123",
      ⟨2024, 1, 2, 3, 4, 5, 123456⟩, ⟨2025, 6, 7, 8, 9, 10, 11⟩, 42⟩) =
      some (JValue.str (String.mk (natDigits 1))) ∧
    (∀ c ∈ natDigits 1, c.isDigit = true) ∧
    List.lookup "url" (to_dict ⟨1, "http://ab.co", "abc123",
      ⟨2024, 1, 2, 3, 4, 5, 123456⟩, ⟨2025, 6, 7, 8, 9, 10, 11⟩, 42⟩) =
      some (JValue.str "http://ab.co") ∧
    List.lookup "shortCode" (to_dict ⟨1, "http://ab.co", "abc123",
      ⟨2024, 1, 2, 3, 4, 5, 123456⟩, ⟨2025, 6, 7, 8, 9, 10, 11⟩, 42⟩) =
      some (JValue.str "abc123") ∧
    List.lookup "accessCount" (to_dict ⟨1, "http://ab.co", "abc123",
      ⟨2024, 1, 2, 3, 4, 5, 123456⟩, ⟨2025, 6, 7, 8, 9, 10, 11⟩, 42⟩) =
      some (JValue.int 42) ∧
    List.lookup "createdAt" (to_dict ⟨1, "http://ab.co", "abc123",
      ⟨2024, 1, 2, 3, 4, 5, 123456⟩, ⟨2025, 6, 7, 8, 9, 10, 11⟩, 42⟩) =
      some (JValue.str (strftimeISO ⟨2024, 1, 2, 3, 4, 5, 123456⟩)) ∧
    isoShape 6 (strftimeISO (⟨2024, 1, 2, 3, 4, 5, 123456⟩ : PyDateTime)).data = true ∧
    List.lookup "updatedAt" (to_dict ⟨1, "http://ab.co", "abc123",
      ⟨2024, 1, 2, 3, 4, 5, 123456⟩, ⟨2025, 6, 7, 8, 9, 10, 11⟩, 42⟩) =
      some (JValue.str (strftimeISO ⟨2025, 6, 7, 8, 9, 10, 11⟩)) ∧
    isoShape 6 (strftimeISO (⟨2025, 6, 7, 8, 9, 10, 11⟩ : PyDateTime)).data = true :=
  C7_amended_serialization ⟨1, "http://ab.co", "abc123",
    ⟨2024, 1, 2, 3, 4, 5, 123456⟩, ⟨2025, 6, 7, 8, 9, 10, 11⟩, 42⟩
    (by unfold validDateTime; decide) (by unfold validDateTime; decide)
